import Mathlib

/-!
Verification of the driller `Tracer` (src/tracer/tracer.py): a shallow
embedding of the trace-guided stepper (`next_branch`, `run`), the dynamic
trace crash-flag computation, the preconstraint manager, and the QEMU
snapshot decoder (`_load_backed`), with theorems checking the
natural-language specification against the embedded code.
-/

namespace Driller

/-- A symbolic path, identified here by the address of its current basic
block (`path.addr` is the only field of a path the tracer reads). -/
structure Path where
  addr : Nat
deriving DecidableEq, Repr

/-- An angr path group as used by the tracer: named stashes of paths.
Only the stashes the tracer touches are modelled. -/
structure PathGroup where
  active : List Path
  missed : List Path
  unsat : List Path
  crashed : List Path
deriving DecidableEq, Repr

/-- Model of the stash call that moves every unsat path into the active
stash. -/
def PathGroup.stashUnsatToActive (pg : PathGroup) : PathGroup :=
  { pg with active := pg.active ++ pg.unsat, unsat := [] }

/-- Model of the drop call that empties the unsat stash. -/
def PathGroup.dropUnsat (pg : PathGroup) : PathGroup :=
  { pg with unsat := [] }

/-- Model of stash_not_addr: move every active path whose address is not
`a` into the missed stash. -/
def PathGroup.stashNotAddr (pg : PathGroup) (a : Nat) : PathGroup :=
  { pg with active := pg.active.filter (fun p => p.addr == a),
            missed := pg.missed ++ pg.active.filter (fun p => !(p.addr == a)) }

/-- Model of the drop call that empties the missed stash. -/
def PathGroup.dropMissed (pg : PathGroup) : PathGroup :=
  { pg with missed := [] }

/-- Model of the stash call that moves every active path into the crashed
stash. -/
def PathGroup.stashActiveToCrashed (pg : PathGroup) : PathGroup :=
  { pg with crashed := pg.crashed ++ pg.active, active := [] }

/-- The mutable state of a `Tracer` object that the stepping code touches:
the dynamic trace, the basic-block counter, the last matched address, the
crash flag, the preconstrain option and the current path group. -/
structure TracerSt where
  trace : List Nat
  bb_cnt : Nat
  previous : Option Nat
  crash_mode : Bool
  preconstrain : Bool
  path_group : PathGroup
deriving DecidableEq, Repr

/-- Errors the embedded tracer can signal.  `indexError` is the Python
builtin `IndexError` from `self.trace[self.bb_cnt]`; `oob` is
`TracerDynamicTraceOOBError`; `misfollow` is `TracerMisfollowError`;
`fuelOut` marks exhaustion of the step budget of the embedding. -/
inductive TracerErr where
  | misfollow
  | indexError
  | oob
  | fuelOut
deriving DecidableEq, Repr

/-- Lines 107-115 of `next_branch`: record `previous` has already been
folded into `st`; step the path group with the external engine `stepf`,
restash unsat paths into active when preconstraining, drop unsat. -/
def stepUpdate (stepf : PathGroup → PathGroup) (st : TracerSt) : TracerSt :=
  let pg1 := stepf st.path_group
  let pg2 := if st.preconstrain then pg1.stashUnsatToActive else pg1
  { st with path_group := pg2.dropUnsat }

/-- The `while len(self.path_group.active) == 1` loop of `next_branch`
(lines 82-115), with an explicit fuel bound.  Errors carry the tracer
state at the moment the Python exception is raised. -/
def nextBranchLoop (stepf : PathGroup → PathGroup) :
    Nat → TracerSt → Except (TracerErr × TracerSt) TracerSt
  | 0, st =>
      if st.path_group.active.length = 1 then .error (.fuelOut, st) else .ok st
  | n+1, st =>
      match st.path_group.active with
      | [p] =>
          match st.trace.get? st.bb_cnt with
          | none => .error (.indexError, st)
          | some t =>
              if p.addr = t then
                nextBranchLoop stepf n
                  (stepUpdate stepf
                    { st with bb_cnt := st.bb_cnt + 1, previous := some p.addr })
              else if some p.addr = st.previous then
                nextBranchLoop stepf n
                  (stepUpdate stepf { st with previous := some p.addr })
              else .error (.misfollow, st)
      | _ => .ok st

/-- Lines 117-126 of `next_branch`: after the loop exits, split the active
stash on `trace[bb_cnt]`, capture the returned path group `rpg`, then drop
the missed stash from the path group kept by the tracer.  Looking up
`trace[bb_cnt]` here (the `l.debug`/`stash_not_addr` arguments) raises
`IndexError` when the trace is exhausted. -/
def branchPart (st : TracerSt) :
    Except (TracerErr × TracerSt) (PathGroup × TracerSt) :=
  match st.trace.get? st.bb_cnt with
  | none => .error (.indexError, st)
  | some t =>
      let rpg := st.path_group.stashNotAddr t
      .ok (rpg, { st with path_group := rpg.dropMissed })

/-- Model of `next_branch()` (lines 72-126): run the sync loop, then the
branch split.  Returns the path group handed back to the caller together
with the updated tracer state. -/
def nextBranchFuel (stepf : PathGroup → PathGroup) (fuel : Nat)
    (st : TracerSt) : Except (TracerErr × TracerSt) (PathGroup × TracerSt) :=
  match nextBranchLoop stepf fuel st with
  | .ok st1 => branchPart st1
  | .error e => .error e

/-- The `while len(branches.active)` loop of `run()` (lines 138-149): call
`next_branch` inside a `try`; on `IndexError` with `crash_mode` set, move
the active paths of the tracer path group into `crashed` and stop; on
`IndexError` without `crash_mode`, the exception is swallowed and the loop
retries with `branches` unchanged; other errors propagate. -/
def runAux (stepf : PathGroup → PathGroup) (nbFuel : Nat) :
    Nat → TracerSt → PathGroup → Except (TracerErr × TracerSt) (PathGroup × TracerSt)
  | 0, st, b =>
      if b.active.length = 0 then .ok (b, st) else .error (.fuelOut, st)
  | n+1, st, b =>
      if b.active.length = 0 then .ok (b, st)
      else
        match nextBranchFuel stepf nbFuel st with
        | .ok (rpg, st1) => runAux stepf nbFuel n st1 rpg
        | .error (.indexError, st1) =>
            if st1.crash_mode then
              .ok (st1.path_group.stashActiveToCrashed, st1)
            else runAux stepf nbFuel n st1 b
        | .error e => .error e

/-- Model of `run()` (lines 128-153): the first `next_branch` call sits outside the
`try`, so any error it raises propagates; afterwards `runAux` iterates. -/
def runFuel (stepf : PathGroup → PathGroup) (nbFuel rFuel : Nat)
    (st : TracerSt) : Except (TracerErr × TracerSt) (PathGroup × TracerSt) :=
  match nextBranchFuel stepf nbFuel st with
  | .ok (rpg, st1) => runAux stepf nbFuel rFuel st1 rpg
  | .error e => .error e

/-- Model of `_current_bb` (lines 199-206): probe `trace[bb_cnt]`; on `IndexError`
return `None` when in crash mode, otherwise raise
`TracerDynamicTraceOOBError`.  (Its only call site, line 85, is commented
out in the source.) -/
def currentBB (st : TracerSt) : Except TracerErr Unit :=
  match st.trace.get? st.bb_cnt with
  | some _ => .ok ()
  | none => if st.crash_mode then .ok () else .error .oob

/-- The signal numbers compared against in `_dynamic_trace`. -/
def SIGSEGV : Nat := 11

/-- The signal number of `signal.SIGILL`. -/
def SIGILL : Nat := 4

/-- Lines 222-228 of `_dynamic_trace`: starting from `crash_mode = False`,
set it iff the emulator exit code is negative with absolute value
`SIGSEGV` or `SIGILL`. -/
def crashModeOf (ret : Int) : Bool :=
  if ret < 0 then
    if ret.natAbs = SIGSEGV ∨ ret.natAbs = SIGILL then true else false
  else false

/-- The windup loop of `_prepare_paths` (lines 381-382):
`while self.trace[self.bb_cnt] != target: self.bb_cnt += 1`, with fuel;
an out-of-range index raises `IndexError`. -/
def windupLoop (trace : List Nat) (target : Nat) :
    Nat → Nat → Except TracerErr Nat
  | 0, _ => .error .fuelOut
  | n+1, cnt =>
      match trace.get? cnt with
      | none => .error .indexError
      | some a => if a = target then .ok cnt else windupLoop trace target n (cnt + 1)

/-! ## State-preservation helpers -/

/-- Fields of the tracer state that stepping never changes, plus
monotonicity of the basic-block counter. -/
def stPres (st st1 : TracerSt) : Prop :=
  st1.trace = st.trace ∧ st1.crash_mode = st.crash_mode ∧
    st1.preconstrain = st.preconstrain ∧ st.bb_cnt ≤ st1.bb_cnt

theorem stPres_refl (st : TracerSt) : stPres st st :=
  ⟨rfl, rfl, rfl, le_refl _⟩

theorem stPres_trans {a b c : TracerSt} (h1 : stPres a b) (h2 : stPres b c) :
    stPres a c :=
  ⟨h2.1.trans h1.1, h2.2.1.trans h1.2.1, h2.2.2.1.trans h1.2.2.1,
    h1.2.2.2.trans h2.2.2.2⟩

/-- The state carried by a result of the stepping functions. -/
def errSt : Except (TracerErr × TracerSt) TracerSt → TracerSt
  | .ok st => st
  | .error (_, st) => st

/-- The state carried by a result of `next_branch`/`run`. -/
def outSt : Except (TracerErr × TracerSt) (PathGroup × TracerSt) → TracerSt
  | .ok (_, st) => st
  | .error (_, st) => st

theorem stepUpdate_pres (stepf : PathGroup → PathGroup) (st : TracerSt) :
    stPres st (stepUpdate stepf st) :=
  ⟨rfl, rfl, rfl, le_refl _⟩

theorem nextBranchLoop_pres (stepf : PathGroup → PathGroup) :
    ∀ (fuel : Nat) (st : TracerSt), stPres st (errSt (nextBranchLoop stepf fuel st)) := by
  intro fuel
  induction fuel with
  | zero =>
      intro st
      by_cases h : st.path_group.active.length = 1 <;>
        simp [nextBranchLoop, h, errSt, stPres_refl]
  | succ n ih =>
      intro st
      unfold nextBranchLoop
      match hact : st.path_group.active with
      | [] => exact stPres_refl st
      | [p] =>
          match ht : st.trace.get? st.bb_cnt with
          | none => exact stPres_refl st
          | some t =>
              by_cases h1 : p.addr = t
              · simp only [h1, if_pos rfl]
                refine stPres_trans ?_ (ih _)
                exact ⟨rfl, rfl, rfl, Nat.le_succ _⟩
              · simp only [if_neg h1]
                by_cases h2 : some p.addr = st.previous
                · simp only [if_pos h2]
                  refine stPres_trans ?_ (ih _)
                  exact ⟨rfl, rfl, rfl, le_refl _⟩
                · simp only [if_neg h2]
                  exact stPres_refl st
      | p :: q :: r => exact stPres_refl st

theorem branchPart_pres (st : TracerSt) : stPres st (outSt (branchPart st)) := by
  unfold branchPart
  match ht : st.trace.get? st.bb_cnt with
  | none => exact stPres_refl st
  | some t => exact ⟨rfl, rfl, rfl, le_refl _⟩

theorem nextBranchFuel_pres (stepf : PathGroup → PathGroup) (fuel : Nat)
    (st : TracerSt) : stPres st (outSt (nextBranchFuel stepf fuel st)) := by
  unfold nextBranchFuel
  have hL := nextBranchLoop_pres stepf fuel st
  match hres : nextBranchLoop stepf fuel st with
  | .ok st1 =>
      rw [hres] at hL
      exact stPres_trans (by simpa [errSt] using hL) (branchPart_pres st1)
  | .error (e, st1) =>
      rw [hres] at hL
      simpa [errSt, outSt] using hL

theorem runAux_pres (stepf : PathGroup → PathGroup) (nbFuel : Nat) :
    ∀ (fuel : Nat) (st : TracerSt) (b : PathGroup),
      stPres st (outSt (runAux stepf nbFuel fuel st b)) := by
  intro fuel
  induction fuel with
  | zero =>
      intro st b
      by_cases h : b.active.length = 0 <;> simp [runAux, h, outSt, stPres_refl]
  | succ n ih =>
      intro st b
      unfold runAux
      by_cases h : b.active.length = 0
      · simp [h, outSt, stPres_refl]
      · simp only [if_neg h]
        have hN := nextBranchFuel_pres stepf nbFuel st
        match hres : nextBranchFuel stepf nbFuel st with
        | .ok (rpg, st1) =>
            rw [hres] at hN
            exact stPres_trans (by simpa [outSt] using hN) (ih st1 rpg)
        | .error (.indexError, st1) =>
            rw [hres] at hN
            dsimp only
            by_cases hc : st1.crash_mode
            · simpa [outSt, hc] using hN
            · rw [if_neg hc]
              exact stPres_trans (by simpa [outSt] using hN) (ih st1 b)
        | .error (.misfollow, st1) =>
            rw [hres] at hN
            simpa [outSt] using hN
        | .error (.oob, st1) =>
            rw [hres] at hN
            simpa [outSt] using hN
        | .error (.fuelOut, st1) =>
            rw [hres] at hN
            simpa [outSt] using hN

theorem runFuel_pres (stepf : PathGroup → PathGroup) (nbFuel rFuel : Nat)
    (st : TracerSt) : stPres st (outSt (runFuel stepf nbFuel rFuel st)) := by
  unfold runFuel
  have hN := nextBranchFuel_pres stepf nbFuel st
  match hres : nextBranchFuel stepf nbFuel st with
  | .ok (rpg, st1) =>
      rw [hres] at hN
      exact stPres_trans (by simpa [outSt] using hN) (runAux_pres stepf nbFuel rFuel st1 rpg)
  | .error (e, st1) =>
      rw [hres] at hN
      simpa [outSt] using hN

theorem windupLoop_mono (trace : List Nat) (target : Nat) :
    ∀ (fuel cnt r : Nat), windupLoop trace target fuel cnt = .ok r → cnt ≤ r := by
  intro fuel
  induction fuel with
  | zero => intro cnt r h; simp [windupLoop] at h
  | succ n ih =>
      intro cnt r h
      unfold windupLoop at h
      split at h
      · exact absurd h (by simp)
      · split at h
        · cases h
          exact le_refl _
        · exact (Nat.le_succ cnt).trans (ih _ _ h)

/-! ## C1: lockstep synchronization in `next_branch` -/

/-- C1: while exactly one path is active in `next_branch`, if the address
of that path equals `trace[bb_cnt]` then `bb_cnt` advances by exactly 1; else
if it equals `previous` then `bb_cnt` does not advance; else a
`TracerMisfollowError` is raised; in the non-error cases `previous` is set
to the current address before stepping. -/
theorem next_branch_sync_step (stepf : PathGroup → PathGroup) (n : Nat)
    (st : TracerSt) (p : Path) (t : Nat)
    (hact : st.path_group.active = [p])
    (ht : st.trace.get? st.bb_cnt = some t) :
    (p.addr = t →
      nextBranchLoop stepf (n+1) st =
        nextBranchLoop stepf n
          (stepUpdate stepf
            { st with bb_cnt := st.bb_cnt + 1, previous := some p.addr })) ∧
    (p.addr ≠ t → st.previous = some p.addr →
      nextBranchLoop stepf (n+1) st =
        nextBranchLoop stepf n
          (stepUpdate stepf { st with previous := some p.addr })) ∧
    (p.addr ≠ t → st.previous ≠ some p.addr →
      nextBranchLoop stepf (n+1) st = .error (.misfollow, st)) := by
  refine ⟨?_, ?_, ?_⟩
  · intro h1
    conv_lhs => rw [nextBranchLoop]
    rw [hact]
    dsimp only
    rw [ht]
    dsimp only
    rw [if_pos h1]
  · intro h1 h2
    conv_lhs => rw [nextBranchLoop]
    rw [hact]
    dsimp only
    rw [ht]
    dsimp only
    rw [if_neg h1, if_pos h2.symm]
  · intro h1 h2
    conv_lhs => rw [nextBranchLoop]
    rw [hact]
    dsimp only
    rw [ht]
    dsimp only
    rw [if_neg h1, if_neg (fun hh => h2 hh.symm)]

/-- A concrete synchronized tracer state: one active path at address 5,
trace `[5]`. -/
def stSyncW : TracerSt :=
  ⟨[5], 0, none, false, false, ⟨[⟨5⟩], [], [], []⟩⟩

theorem next_branch_sync_step_witness :
    ((Path.mk 5).addr = 5 →
      nextBranchLoop id 1 stSyncW =
        nextBranchLoop id 0
          (stepUpdate id
            { stSyncW with bb_cnt := stSyncW.bb_cnt + 1,
                           previous := some (Path.mk 5).addr })) ∧
    ((Path.mk 5).addr ≠ 5 → stSyncW.previous = some (Path.mk 5).addr →
      nextBranchLoop id 1 stSyncW =
        nextBranchLoop id 0
          (stepUpdate id { stSyncW with previous := some (Path.mk 5).addr })) ∧
    ((Path.mk 5).addr ≠ 5 → stSyncW.previous ≠ some (Path.mk 5).addr →
      nextBranchLoop id 1 stSyncW = .error (.misfollow, stSyncW)) :=
  next_branch_sync_step id 0 stSyncW ⟨5⟩ 5 rfl rfl

/-! ## C4 and C10: the branch split -/

/-- When the loop guard `len(active) == 1` fails, the sync loop of
`next_branch` exits immediately with the state unchanged. -/
theorem nextBranchLoop_exit (stepf : PathGroup → PathGroup) (fuel : Nat)
    (st : TracerSt) (h : st.path_group.active.length ≠ 1) :
    nextBranchLoop stepf fuel st = .ok st := by
  cases fuel with
  | zero => simp [nextBranchLoop, h]
  | succ n =>
      unfold nextBranchLoop
      match hact : st.path_group.active with
      | [] => rfl
      | [p] => exact absurd (by simp [hact]) h
      | p :: q :: r => rfl

/-- C4: at a branch point (more than one active path), `next_branch`
moves every active path whose address differs from `trace[bb_cnt]` into
`missed` and then drops that stash, so the path group of the tracer keeps
only the paths at `trace[bb_cnt]` in `active` and the moved paths are
absent from it. -/
theorem next_branch_branch_split (stepf : PathGroup → PathGroup) (fuel : Nat)
    (st : TracerSt) (t : Nat)
    (hbranch : 1 < st.path_group.active.length)
    (ht : st.trace.get? st.bb_cnt = some t) :
    ∃ rpg st1, nextBranchFuel stepf fuel st = .ok (rpg, st1) ∧
      st1.path_group.active = st.path_group.active.filter (fun p => p.addr == t) ∧
      st1.path_group.missed = [] ∧
      ∀ p ∈ st.path_group.active, p.addr ≠ t →
        p ∉ st1.path_group.active ∧ p ∉ st1.path_group.missed := by
  have hexit := nextBranchLoop_exit stepf fuel st (by omega)
  refine ⟨st.path_group.stashNotAddr t,
    { st with path_group := (st.path_group.stashNotAddr t).dropMissed },
    ?_, ?_, ?_, ?_⟩
  · unfold nextBranchFuel
    rw [hexit]
    dsimp only
    unfold branchPart
    rw [ht]
  · simp [PathGroup.stashNotAddr, PathGroup.dropMissed]
  · simp [PathGroup.stashNotAddr, PathGroup.dropMissed]
  · intro p hp hne
    constructor
    · intro hmem
      simp only [PathGroup.dropMissed, PathGroup.stashNotAddr] at hmem
      rcases List.mem_filter.mp hmem with ⟨_, hpred⟩
      exact hne (by simpa using hpred)
    · intro hmem
      simp [PathGroup.dropMissed, PathGroup.stashNotAddr] at hmem

/-- A concrete branch-point tracer state: three active paths at addresses
1, 2 and 3, of which only address 1 matches `trace[bb_cnt] = 1`. -/
def stBranchW : TracerSt :=
  ⟨[1], 0, none, false, false, ⟨[⟨1⟩, ⟨2⟩, ⟨3⟩], [], [], []⟩⟩

theorem next_branch_branch_split_witness :
    ∃ rpg st1, nextBranchFuel id 2 stBranchW = .ok (rpg, st1) ∧
      st1.path_group.active =
        stBranchW.path_group.active.filter (fun p => p.addr == 1) ∧
      st1.path_group.missed = [] ∧
      ∀ p ∈ stBranchW.path_group.active, p.addr ≠ 1 →
        p ∉ st1.path_group.active ∧ p ∉ st1.path_group.missed :=
  next_branch_branch_split id 2 stBranchW 1 (by decide) (by decide)

/-- C10: the path-group snapshot returned by `next_branch` at a branch
point is captured before the `missed` stash is dropped: the not-taken
paths are still present in the `missed` stash of the returned snapshot,
while the subsequent tracer path group equals the snapshot with `missed`
emptied. -/
theorem next_branch_snapshot_keeps_missed (stepf : PathGroup → PathGroup)
    (fuel : Nat) (st : TracerSt) (t : Nat)
    (hbranch : 1 < st.path_group.active.length)
    (ht : st.trace.get? st.bb_cnt = some t) :
    ∃ rpg st1, nextBranchFuel stepf fuel st = .ok (rpg, st1) ∧
      (∀ p ∈ st.path_group.active, p.addr ≠ t → p ∈ rpg.missed) ∧
      st1.path_group = { rpg with missed := [] } ∧
      st1.path_group.active = rpg.active := by
  have hexit := nextBranchLoop_exit stepf fuel st (by omega)
  refine ⟨st.path_group.stashNotAddr t,
    { st with path_group := (st.path_group.stashNotAddr t).dropMissed },
    ?_, ?_, ?_, ?_⟩
  · unfold nextBranchFuel
    rw [hexit]
    dsimp only
    unfold branchPart
    rw [ht]
  · intro p hp hne
    simp only [PathGroup.stashNotAddr]
    refine List.mem_append_right _ (List.mem_filter.mpr ⟨hp, ?_⟩)
    simpa using hne
  · rfl
  · rfl

/-- A concrete branch-point tracer state for the snapshot claim: active
paths at addresses 7 and 8, trace expecting 7. -/
def stSnapW : TracerSt :=
  ⟨[7], 0, none, false, false, ⟨[⟨7⟩, ⟨8⟩], [], [], []⟩⟩

theorem next_branch_snapshot_keeps_missed_witness :
    ∃ rpg st1, nextBranchFuel id 2 stSnapW = .ok (rpg, st1) ∧
      (∀ p ∈ stSnapW.path_group.active, p.addr ≠ 7 → p ∈ rpg.missed) ∧
      st1.path_group = { rpg with missed := [] } ∧
      st1.path_group.active = rpg.active :=
  next_branch_snapshot_keeps_missed id 2 stSnapW 7 (by decide) (by decide)

/-! ## C2: the out-of-bounds trace index -/

/-- A tracer state whose trace index is past the end of the trace while a
single path is active and crash mode is off. -/
def stOobW : TracerSt :=
  ⟨[5], 1, some 5, false, false, ⟨[⟨7⟩], [], [], []⟩⟩

/-- C2 counterexample: with `bb_cnt` past the end of the trace and
CrashFlag unset, the lookup of `trace[bb_cnt]` inside `next_branch` raises the
builtin `IndexError`, not `TracerDynamicTraceOOBError`. -/
theorem next_branch_oob_raises_index_error :
    nextBranchFuel id 3 stOobW = .error (.indexError, stOobW) ∧
    TracerErr.indexError ≠ TracerErr.oob := by
  exact ⟨rfl, by decide⟩

/-- C2 (amended): only the `_current_bb` helper implements the overloaded
out-of-bounds condition — `TracerDynamicTraceOOBError` when CrashFlag is
unset, the expected `None` crash signal when it is set — while
the direct lookups of `trace[bb_cnt]` in `next_branch` raise the builtin
`IndexError` instead. -/
theorem current_bb_oob_dual (st : TracerSt)
    (h : st.trace.get? st.bb_cnt = none) :
    (st.crash_mode = false → currentBB st = .error .oob) ∧
    (st.crash_mode = true → currentBB st = .ok ()) ∧
    (st.path_group.active.length ≠ 1 →
      ∀ (stepf : PathGroup → PathGroup) (fuel : Nat),
        nextBranchFuel stepf fuel st = .error (.indexError, st)) ∧
    (∀ p, st.path_group.active = [p] →
      ∀ (stepf : PathGroup → PathGroup) (fuel : Nat),
        nextBranchFuel stepf (fuel+1) st = .error (.indexError, st)) := by
  refine ⟨?_, ?_, ?_, ?_⟩
  · intro hc
    unfold currentBB
    rw [h, hc]
    rfl
  · intro hc
    unfold currentBB
    rw [h, hc]
    rfl
  · intro hlen stepf fuel
    unfold nextBranchFuel
    rw [nextBranchLoop_exit stepf fuel st hlen]
    dsimp only
    unfold branchPart
    rw [h]
  · intro p hact stepf fuel
    unfold nextBranchFuel
    conv_lhs => rw [nextBranchLoop]
    rw [hact]
    dsimp only
    rw [h]

/-- A tracer state with an exhausted trace index, no active path and
CrashFlag unset, for the C2 witness. -/
def stOob2W : TracerSt :=
  ⟨[5], 1, none, false, false, ⟨[], [], [], []⟩⟩

theorem current_bb_oob_dual_witness :
    currentBB stOob2W = .error .oob ∧
    nextBranchFuel id 5 stOob2W = .error (.indexError, stOob2W) :=
  ⟨(current_bb_oob_dual stOob2W rfl).1 rfl,
   (current_bb_oob_dual stOob2W rfl).2.2.1 (by decide) id 5⟩

/-! ## C3: `run` at trace exhaustion -/

/-- The successor relation of a small concrete symbolic exploration:
block 10 forks to blocks 11 and 12, block 11 continues to block 12. -/
def succC3 : Nat → List Path
  | 10 => [⟨11⟩, ⟨12⟩]
  | 11 => [⟨12⟩]
  | _ => []

/-- The engine step for the concrete exploration: replace each active
path by its successors. -/
def stepC3 : PathGroup → PathGroup :=
  fun pg => { pg with active := pg.active.flatMap (fun p => succC3 p.addr) }

/-- Initial tracer state for the concrete run: dynamic trace `[10, 11]`,
symbolic exploration starting at block 10. -/
def stRunW : TracerSt :=
  ⟨[10, 11], 0, none, false, false, ⟨[⟨10⟩], [], [], []⟩⟩

/-- The state at which the concrete run exhausts its trace: `bb_cnt = 2`
is past the end of `[10, 11]`, one path (block 12) still active,
`previous = 11 = trace[bb_cnt - 1]`. -/
def stExhW : TracerSt :=
  ⟨[10, 11], 2, some 11, false, false, ⟨[⟨12⟩], [], [], []⟩⟩

/-- C3, evaluated at the failing input: when the trace is exhausted with
CrashFlag unset, `next_branch` raises `IndexError` with the tracer state
unchanged, and the except-IndexError handler of `run` swallows it and
retries forever (the fuelled run never terminates), instead of returning
a natural deadend.  With CrashFlag set the very same run returns the
active path in the `crashed` stash, and `previous = trace[bb_cnt - 1]`. -/
theorem run_trace_exhaustion_no_crash_hangs :
    nextBranchFuel stepC3 4 stExhW = .error (.indexError, stExhW) ∧
    runFuel stepC3 4 30 stRunW = .error (.fuelOut, stExhW) ∧
    runFuel stepC3 4 30 { stRunW with crash_mode := true } =
      .ok (⟨[], [], [], [⟨12⟩]⟩, { stExhW with crash_mode := true }) ∧
    stExhW.previous = stExhW.trace.get? (stExhW.bb_cnt - 1) := by
  exact ⟨rfl, rfl, rfl, rfl⟩

/-! ## C5: the crash flag -/

/-- C5: after trace capture, CrashFlag is true iff the emulator exit
code is negative with absolute value `SIGSEGV` or `SIGILL`; and no
stepping operation (`next_branch`, `run`) ever changes it afterwards. -/
theorem crash_flag_characterization (ret : Int)
    (stepf : PathGroup → PathGroup) (nbFuel rFuel : Nat) (st : TracerSt) :
    (crashModeOf ret = true ↔
      ret < 0 ∧ (ret.natAbs = SIGSEGV ∨ ret.natAbs = SIGILL)) ∧
    (outSt (nextBranchFuel stepf nbFuel st)).crash_mode = st.crash_mode ∧
    (outSt (runFuel stepf nbFuel rFuel st)).crash_mode = st.crash_mode := by
  refine ⟨?_, (nextBranchFuel_pres stepf nbFuel st).2.1,
    (runFuel_pres stepf nbFuel rFuel st).2.1⟩
  unfold crashModeOf
  split_ifs with h1 h2 <;> simp_all

/-! ## C9: monotonicity of `bb_cnt` -/

/-- C9: the cursor `bb_cnt` never decreases: across the construction
windup loop, across `next_branch` (including its error outcomes) and
across `run`, the resulting `bb_cnt` is at least the starting one. -/
theorem bb_cnt_monotone (trace : List Nat) (target fuel cnt : Nat)
    (stepf : PathGroup → PathGroup) (nbFuel rFuel : Nat) (st : TracerSt) :
    (∀ r, windupLoop trace target fuel cnt = .ok r → cnt ≤ r) ∧
    st.bb_cnt ≤ (outSt (nextBranchFuel stepf nbFuel st)).bb_cnt ∧
    st.bb_cnt ≤ (outSt (runFuel stepf nbFuel rFuel st)).bb_cnt :=
  ⟨fun r h => windupLoop_mono trace target fuel cnt r h,
   (nextBranchFuel_pres stepf nbFuel st).2.2.2,
   (runFuel_pres stepf nbFuel rFuel st).2.2.2⟩

/-- A concrete synchronized state for the monotonicity witness. -/
def stMonoW : TracerSt :=
  ⟨[3, 5], 0, none, false, false, ⟨[⟨3⟩], [], [], []⟩⟩

theorem bb_cnt_monotone_witness :
    (0 : Nat) ≤ 1 ∧
    stMonoW.bb_cnt ≤ (outSt (nextBranchFuel id 2 stMonoW)).bb_cnt ∧
    stMonoW.bb_cnt ≤ (outSt (runFuel id 2 2 stMonoW)).bb_cnt :=
  ⟨(bb_cnt_monotone [3, 5] 5 5 0 id 2 2 stMonoW).1 1 rfl,
   (bb_cnt_monotone [3, 5] 5 5 0 id 2 2 stMonoW).2.1,
   (bb_cnt_monotone [3, 5] 5 5 0 id 2 2 stMonoW).2.2⟩

/-! ## C6 and C7: the preconstraint manager -/

/-- Symbolic (claripy-style) expressions as the tracer uses them: the
1-byte symbolic stdin read of the engine at a stream position, a concrete byte
value (`BVV`), equality, conjunction, negation, and the logically-true
value `state.se.true`. -/
inductive Expr where
  | readByte (i : Nat)
  | byteVal (v : Nat)
  | eqE (a b : Expr)
  | andE (a b : Expr)
  | notE (a : Expr)
  | trueE
deriving DecidableEq, Repr

/-- Model of `c.replace(pat, repl)`: structural replacement of every occurrence of
the subterm `pat` in `c` by `repl`. -/
def Expr.replace : Expr → Expr → Expr → Expr
  | c, pat, repl =>
    if c = pat then repl
    else
      match c with
      | .eqE a b => .eqE (Expr.replace a pat repl) (Expr.replace b pat repl)
      | .andE a b => .andE (Expr.replace a pat repl) (Expr.replace b pat repl)
      | .notE a => .notE (Expr.replace a pat repl)
      | c => c

/-- The part of an angr entry state `_preconstrain_state` touches: the
stdin read position and the constraint store. -/
structure EntrySt where
  stdinPos : Nat
  constraints : List Expr
deriving DecidableEq, Repr

/-- The `for b in self.input` loop of `_preconstrain_state` (lines
367-370): each iteration reads one symbolic stdin byte (advancing the
read position), builds the equality with the concrete byte, appends it to
the preconstraint list and adds it to the constraint store. -/
def preconstrainLoop : List Nat → Nat → List Expr → List Expr →
    Nat × List Expr × List Expr
  | [], pos, pre, cons => (pos, pre, cons)
  | b :: rest, pos, pre, cons =>
      let c := Expr.eqE (Expr.readByte pos) (Expr.byteVal b)
      preconstrainLoop rest (pos + 1) (pre ++ [c]) (cons ++ [c])

/-- Model of `_preconstrain_state` (lines 360-372): run the per-byte loop, then
`stdin.seek(0)`.  Returns the updated entry state and the preconstraint
list. -/
def preconstrainState (input : List Nat) (st : EntrySt) (pre : List Expr) :
    EntrySt × List Expr :=
  let r := preconstrainLoop input st.stdinPos pre st.constraints
  (⟨0, r.2.2⟩, r.2.1)

/-- Model of `remove_preconstraints` (lines 155-168) acting on the constraint list
of a path: no-op when preconstraining is off, otherwise each constraint is
rewritten by substituting every preconstraint, in order, with the true
value. -/
def removePreconstraints (preconstrain : Bool) (pre : List Expr)
    (cons : List Expr) : List Expr :=
  if preconstrain = false then cons
  else cons.map (fun c => pre.foldl (fun acc pc => acc.replace pc Expr.trueE) c)

theorem preconstrainLoop_spec (input : List Nat) :
    ∀ (pos : Nat) (pre cons : List Expr),
      preconstrainLoop input pos pre cons =
        (pos + input.length,
         pre ++ (input.enumFrom pos).map
           (fun q => Expr.eqE (.readByte q.1) (.byteVal q.2)),
         cons ++ (input.enumFrom pos).map
           (fun q => Expr.eqE (.readByte q.1) (.byteVal q.2))) := by
  induction input with
  | nil => intro pos pre cons; simp [preconstrainLoop]
  | cons b rest ih =>
      intro pos pre cons
      simp only [preconstrainLoop, ih, List.enumFrom, List.map_cons,
        List.length_cons, Prod.mk.injEq]
      exact ⟨by omega, by simp, by simp⟩

/-- C6: preconstraining an entry state (stdin at position 0) with an
`n`-byte input produces exactly `n` preconstraints, the `i`-th being the
equality between the 1-byte symbolic stdin read at position `i` and the
concrete byte `input[i]`; each is also added, in the same order, to the
constraint store, and the stdin read position ends up reset to 0. -/
theorem preconstrain_produces_per_byte (input : List Nat) (cs : List Expr) :
    (preconstrainState input ⟨0, cs⟩ []).2 =
      input.enum.map (fun q => Expr.eqE (.readByte q.1) (.byteVal q.2)) ∧
    (preconstrainState input ⟨0, cs⟩ []).2.length = input.length ∧
    (preconstrainState input ⟨0, cs⟩ []).1.constraints =
      cs ++ (preconstrainState input ⟨0, cs⟩ []).2 ∧
    (preconstrainState input ⟨0, cs⟩ []).1.stdinPos = 0 := by
  unfold preconstrainState
  rw [preconstrainLoop_spec]
  simp [List.enum]

/-- C7: `remove_preconstraints` leaves the constraints unchanged when
preconstraining was disabled; otherwise it rewrites every constraint,
keeping their number, by substituting each preconstraint term in order
with the logically-true value — and substituting a preconstraint term
into itself indeed yields the true value. -/
theorem remove_preconstraints_rewrite (pre cons : List Expr) :
    removePreconstraints false pre cons = cons ∧
    (removePreconstraints true pre cons).length = cons.length ∧
    (∀ i, (removePreconstraints true pre cons).get? i =
      (cons.get? i).map
        (fun c => pre.foldl (fun acc pc => acc.replace pc Expr.trueE) c)) ∧
    (∀ pc, Expr.replace pc pc Expr.trueE = Expr.trueE) := by
  refine ⟨rfl, by simp [removePreconstraints], ?_, ?_⟩
  · intro i
    simp [removePreconstraints]
  · intro pc
    unfold Expr.replace
    simp

/-! ## C8: the snapshot decoder (`_load_backed`) -/

/-- The value of four little-endian bytes, as struct.unpack reads them. -/
def decodeU32 (a b c d : Nat) : Nat :=
  a + 256 * b + 65536 * c + 16777216 * d

/-- Read a 32-bit little-endian value; fails (like `struct.unpack` on a
short read) when fewer than 4 bytes remain. -/
def readU32 : List Nat → Option (Nat × List Nat)
  | a :: b :: c :: d :: rest => some (decodeU32 a b c d, rest)
  | _ => none

/-- Read a 64-bit little-endian value (`struct.unpack("<Q", f.read(8))`). -/
def readU64 : List Nat → Option (Nat × List Nat)
  | a :: b :: c :: d :: e :: f :: g :: h :: rest =>
      some (a + 256 * b + 65536 * c + 16777216 * d + 4294967296 * e +
        1099511627776 * f + 281474976710656 * g + 72057594037927936 * h, rest)
  | _ => none

/-- Read one byte (`struct.unpack("B", f.read(1))`). -/
def readU8 : List Nat → Option (Nat × List Nat)
  | a :: rest => some (a, rest)
  | _ => none

/-- The bytes of the terminating tag `"REGS"`. -/
def regsTag : List Nat := [82, 69, 71, 83]

/-- Model of `memory[start] = content` on the decoded overlay (Python dict
assignment: overwrite in place if the key exists, else append). -/
def insertMem (mem : List (Nat × List Nat)) (k : Nat) (v : List Nat) :
    List (Nat × List Nat) :=
  if mem.any (fun q => q.1 == k) then
    mem.map (fun q => if q.1 == k then (k, v) else q)
  else mem ++ [(k, v)]

/-- Read `n` consecutive 32-bit values. -/
def readU32s : Nat → List Nat → Option (List Nat × List Nat)
  | 0, s => some ([], s)
  | n+1, s =>
      match readU32 s with
      | none => none
      | some (v, s1) =>
          match readU32s n s1 with
          | none => none
          | some (vs, s2) => some (v :: vs, s2)

/-- Read `n` consecutive single bytes. -/
def readU8s : Nat → List Nat → Option (List Nat × List Nat)
  | 0, s => some ([], s)
  | n+1, s =>
      match readU8 s with
      | none => none
      | some (v, s1) =>
          match readU8s n s1 with
          | none => none
          | some (vs, s2) => some (v :: vs, s2)

/-- One 128-bit-wide register: two consecutive 64-bit little-endian
halves, combined as `lo | (hi << 64)` (the source idiom
`regs[r] = lo; regs[r] |= hi << 64`). -/
def readWide (s : List Nat) : Option (Nat × List Nat) := do
  let (lo, s) ← readU64 s
  let (hi, s) ← readU64 s
  pure (lo ||| (hi <<< 64), s)

/-- Read `n` consecutive two-half-wide registers. -/
def readWides : Nat → List Nat → Option (List Nat × List Nat)
  | 0, s => some ([], s)
  | n+1, s =>
      match readWide s with
      | none => none
      | some (v, s1) =>
          match readWides n s1 with
          | none => none
          | some (vs, s2) => some (v :: vs, s2)

/-- The general-purpose register names of `_load_backed`, in read order. -/
def gpNames : List String :=
  ["eax", "ebx", "ecx", "edx", "esi", "edi", "ebp", "esp"]

/-- x87 register names `st0`..`st7`. -/
def stNames : List String :=
  ["st0", "st1", "st2", "st3", "st4", "st5", "st6", "st7"]

/-- x87 tag names `fpu_t0`..`fpu_t7`. -/
def tagNames : List String :=
  ["fpu_t0", "fpu_t1", "fpu_t2", "fpu_t3", "fpu_t4", "fpu_t5", "fpu_t6",
   "fpu_t7"]

/-- SIMD register names `xmm0`..`xmm7`. -/
def xmmNames : List String :=
  ["xmm0", "xmm1", "xmm2", "xmm3", "xmm4", "xmm5", "xmm6", "xmm7"]

/-- Pair decoded values with their register names in order. -/
def named (names : List String) (vals : List Nat) : List (String × Int) :=
  (names.zip vals).map (fun q => (q.1, (q.2 : Int)))

/-- The register block of `_load_backed` (lines 270-350), decoded field
by field in source order and widths: eight 32-bit general-purpose
registers, the 32-bit direction flag, the 32-bit instruction pointer
(stored as the raw value minus 2), eight x87 registers of two 64-bit
halves, eight single-byte x87 tags, the 32-bit `ftop` and `mxcsr`, and
eight SIMD registers of two 64-bit halves. -/
def parseRegs (s : List Nat) : Option (List (String × Int) × List Nat) := do
  let (gp, s) ← readU32s 8 s
  let (dflag, s) ← readU32 s
  let (eipRaw, s) ← readU32 s
  let (sts, s) ← readWides 8 s
  let (tags, s) ← readU8s 8 s
  let (ftop, s) ← readU32 s
  let (mxcsr, s) ← readU32 s
  let (xmms, s) ← readWides 8 s
  pure (named gpNames gp ++
    [("d", (dflag : Int)), ("eip", (eipRaw : Int) - 2)] ++
    named stNames sts ++ named tagNames tags ++
    [("ftop", (ftop : Int)), ("mxcsr", (mxcsr : Int))] ++
    named xmmNames xmms, s)

/-- The `while len(regs) == 0` decoding loop of `_load_backed` (lines
261-350): read a 4-byte tag; if it is not `"REGS"`, decode a memory
record (start, end, length, `length` content bytes — `f.read` returns
what is available) and store it keyed by start; otherwise decode the
register block and stop. -/
def parseDump : Nat → List Nat → List (Nat × List Nat) →
    Option (List (Nat × List Nat) × List (String × Int))
  | 0, _, _ => none
  | n+1, s, mem =>
      match s with
      | a :: b :: c :: d :: rest =>
          if [a, b, c, d] = regsTag then
            match parseRegs rest with
            | none => none
            | some (regs, _) => some (mem, regs)
          else
            match readU32 rest with
            | none => none
            | some (_, r1) =>
                match readU32 r1 with
                | none => none
                | some (len, r2) =>
                    parseDump n (r2.drop len)
                      (insertMem mem (decodeU32 a b c d) (r2.take len))
      | _ => none

/-- The raw bytes of a register block whose instruction-pointer field
holds the little-endian bytes `b0 b1 b2 b3` and whose other fields are
all zero. -/
def mkRegsBytes (b0 b1 b2 b3 : Nat) : List Nat :=
  regsTag ++ List.replicate 36 0 ++ [b0, b1, b2, b3] ++ List.replicate 272 0

/-- The decoded register map for `mkRegsBytes`. -/
def regsOfEip (b0 b1 b2 b3 : Nat) : List (String × Int) :=
  [("eax", 0), ("ebx", 0), ("ecx", 0), ("edx", 0), ("esi", 0), ("edi", 0),
   ("ebp", 0), ("esp", 0), ("d", 0),
   ("eip", (decodeU32 b0 b1 b2 b3 : Int) - 2),
   ("st0", 0), ("st1", 0), ("st2", 0), ("st3", 0), ("st4", 0), ("st5", 0),
   ("st6", 0), ("st7", 0),
   ("fpu_t0", 0), ("fpu_t1", 0), ("fpu_t2", 0), ("fpu_t3", 0),
   ("fpu_t4", 0), ("fpu_t5", 0), ("fpu_t6", 0), ("fpu_t7", 0),
   ("ftop", 0), ("mxcsr", 0),
   ("xmm0", 0), ("xmm1", 0), ("xmm2", 0), ("xmm3", 0), ("xmm4", 0),
   ("xmm5", 0), ("xmm6", 0), ("xmm7", 0)]

theorem parseRegs_mkRegsBytes (b0 b1 b2 b3 : Nat) (r : List Nat) :
    parseRegs (List.replicate 36 0 ++ [b0, b1, b2, b3] ++
        List.replicate 272 0 ++ r) =
      some (regsOfEip b0 b1 b2 b3, r) := by
  rfl

theorem parseDump_mem_step (n s0 s1 s2 s3 e0 e1 e2 e3 l0 l1 l2 l3 : Nat)
    (content rest : List Nat) (mem : List (Nat × List Nat))
    (htag : [s0, s1, s2, s3] ≠ regsTag)
    (hlen : content.length = decodeU32 l0 l1 l2 l3) :
    parseDump (n+1)
        ([s0, s1, s2, s3] ++ [e0, e1, e2, e3] ++ [l0, l1, l2, l3] ++
          content ++ rest) mem =
      parseDump n rest (insertMem mem (decodeU32 s0 s1 s2 s3) content) := by
  have hshape : [s0, s1, s2, s3] ++ [e0, e1, e2, e3] ++ [l0, l1, l2, l3] ++
      content ++ rest =
      s0 :: s1 :: s2 :: s3 :: e0 :: e1 :: e2 :: e3 :: l0 :: l1 :: l2 :: l3 ::
        (content ++ rest) := by simp
  rw [hshape]
  conv_lhs => rw [parseDump]
  dsimp only [readU32]
  rw [if_neg htag]
  rw [List.take_left' hlen, List.drop_left' hlen]

theorem parseDump_regs_stop (n b0 b1 b2 b3 : Nat)
    (mem : List (Nat × List Nat)) :
    parseDump (n+1) (mkRegsBytes b0 b1 b2 b3) mem =
      some (mem, regsOfEip b0 b1 b2 b3) := by
  have hshape : mkRegsBytes b0 b1 b2 b3 =
      82 :: 69 :: 71 :: 83 ::
        (List.replicate 36 0 ++ [b0, b1, b2, b3] ++ List.replicate 272 0 ++
          ([] : List Nat)) := by
    simp [mkRegsBytes, regsTag]
  rw [hshape]
  conv_lhs => rw [parseDump]
  rw [if_pos (show [82, 69, 71, 83] = regsTag from rfl), parseRegs_mkRegsBytes]

/-- C8: decoding a dump with one memory record stores that record in the
overlay keyed by the 32-bit little-endian start offset with exactly the
declared content bytes, and decodes the instruction pointer as the raw
32-bit little-endian value minus exactly 2. -/
theorem load_backed_decode (s0 s1 s2 s3 e0 e1 e2 e3 l0 l1 l2 l3
    b0 b1 b2 b3 : Nat) (content : List Nat)
    (htag : [s0, s1, s2, s3] ≠ regsTag)
    (hlen : content.length = decodeU32 l0 l1 l2 l3) :
    ∃ regs,
      parseDump 2
          ([s0, s1, s2, s3] ++ [e0, e1, e2, e3] ++ [l0, l1, l2, l3] ++
            content ++ mkRegsBytes b0 b1 b2 b3) [] =
        some ([(decodeU32 s0 s1 s2 s3, content)], regs) ∧
      regs.lookup "eip" = some ((decodeU32 b0 b1 b2 b3 : Int) - 2) := by
  refine ⟨regsOfEip b0 b1 b2 b3, ?_, ?_⟩
  · rw [parseDump_mem_step 1 s0 s1 s2 s3 e0 e1 e2 e3 l0 l1 l2 l3 content
      (mkRegsBytes b0 b1 b2 b3) [] htag hlen]
    rw [parseDump_regs_stop 0 b0 b1 b2 b3]
    rfl
  · rfl

/-- The synthetic dump of the spec: one memory record
`(start = 0x1000, bytes = 90 90)` and a register block with raw
instruction pointer `0x08048080`; the decoder yields the overlay
`{0x1000 ↦ [0x90, 0x90]}` and instruction pointer `0x0804807e`. -/
theorem load_backed_decode_witness :
    ∃ regs,
      parseDump 2
          ([0, 16, 0, 0] ++ [2, 16, 0, 0] ++ [2, 0, 0, 0] ++ [144, 144] ++
            mkRegsBytes 128 128 4 8) [] =
        some ([(4096, [144, 144])], regs) ∧
      regs.lookup "eip" = some (134512766 : Int) :=
  load_backed_decode 0 16 0 0 2 16 0 0 2 0 0 0 128 128 4 8 [144, 144]
    (by decide) (by decide)

end Driller
